import Mathlib

/-!
Shallow embedding of the go-json5 streaming reader (`reader.go`): the
lexical state machine that translates JSON5 input to JSON output, the
positioned character source with single-level pushback, and the byte-level
`Read` adapter.  Machine integers are modelled as `Nat`; runes as `Char`;
the input stream as a `List Char`; the token channel as a `List Tok`.
-/

namespace Json5

/-- Underlying error causes produced by the lexer (`io.EOF`,
`errors.New("unexpected newline")`, and the `fmt.Errorf` for an unexpected
character in an identifier). -/
inductive GoErr where
  | eof
  | unexpectedNewline
  | unexpectedCharInIdentifier (c : Char)
deriving DecidableEq, Repr

/-- An error as surfaced by `Reader.err`: `io.EOF` is propagated unwrapped,
anything else is wrapped in a `LexingError` carrying line and column. -/
inductive Fault where
  | eof
  | lexingError (line col : Nat) (cause : GoErr)
deriving DecidableEq, Repr

/-- A token sent on the reader's channel (`token` struct in reader.go):
`tokenRune` carries one rune, `tokenNumber` a converted numeral string,
`tokenError` an error. -/
inductive Tok where
  | rune (c : Char)
  | num (s : String)
  | err (f : Fault)
deriving DecidableEq, Repr

/-- The state function the machine is in (`stateFunc` in reader.go).
`errSink` is the self-returning closure built by `Reader.err`; `panicked`
records that the `panic` in `lexHex` fired. -/
inductive Mode where
  | lex
  | lexIdentifier
  | lexNumber
  | lexHex
  | lexString
  | lexLineComment
  | errSink (f : Fault)
  | panicked
deriving DecidableEq, Repr

/-- The `Reader` struct's lexer-side fields: remaining input, current state
function, position tracking, the active string quote, the pending-comma
flag (`comma`) and the key-quoting suppression flag (`noident`). -/
structure Reader where
  input : List Char
  mode : Mode
  line : Nat
  col : Nat
  lastcol : Nat
  quote : Char
  comma : Bool
  noident : Bool
deriving DecidableEq, Repr

/-- Models Go's `unicode.IsSpace`: the Latin-1 fast path
(`\t`, `\n`, `\v`, `\f`, `\r`, space, NEL, NBSP) plus the remaining
White_Space code points of the Unicode table. -/
def goIsSpace (c : Char) : Bool :=
  decide (c.toNat = 9 ∨ c.toNat = 10 ∨ c.toNat = 11 ∨ c.toNat = 12 ∨
    c.toNat = 13 ∨ c.toNat = 32 ∨ c.toNat = 0x85 ∨ c.toNat = 0xA0 ∨
    c.toNat = 0x1680 ∨ (0x2000 ≤ c.toNat ∧ c.toNat ≤ 0x200A) ∨
    c.toNat = 0x2028 ∨ c.toNat = 0x2029 ∨ c.toNat = 0x202F ∨
    c.toNat = 0x205F ∨ c.toNat = 0x3000)

/-- Models Go's `unicode.IsLetter`, exact on the Latin-1 range
(A-Z, a-z, ª, µ, º, À-Ö, Ø-ö, ø-ÿ); the table-driven letters above U+00FF
are not modelled (no claim in this development depends on them). -/
def goIsLetter (c : Char) : Bool :=
  decide ((65 ≤ c.toNat ∧ c.toNat ≤ 90) ∨ (97 ≤ c.toNat ∧ c.toNat ≤ 122) ∨
    c.toNat = 0xAA ∨ c.toNat = 0xB5 ∨ c.toNat = 0xBA ∨
    (0xC0 ≤ c.toNat ∧ c.toNat ≤ 0xD6) ∨ (0xD8 ≤ c.toNat ∧ c.toNat ≤ 0xF6) ∨
    (0xF8 ≤ c.toNat ∧ c.toNat ≤ 0xFF))

/-- Models `unicode.In(b, unicode.L, unicode.Nl, unicode.Nd, unicode.Mn,
unicode.Mc, unicode.Pc)` from `lexIdentifier`, exact on the Latin-1 range
(there L covers the letters above, Nd is 0-9, Pc is the low line, and
Nl, Mn, Mc are empty); code points above U+00FF are not modelled. -/
def goIsIdentChar (c : Char) : Bool :=
  goIsLetter c || decide (48 ≤ c.toNat ∧ c.toNat ≤ 57) || c = '_'

/-- `Reader.pop`: consume the next rune, advancing the position (a newline
increments `line` and resets `col` to 0); `none` models the `io.EOF`
error. -/
def Reader.pop (r : Reader) : Option (Char × Reader) :=
  match r.input with
  | [] => none
  | c :: rest =>
    if c = '\n' then
      some (c, { r with input := rest, line := r.line + 1, lastcol := r.col, col := 0 })
    else
      some (c, { r with input := rest, lastcol := r.col, col := r.col + 1 })

/-- `Reader.push`: unread the most recently popped rune and restore the
previous column (`r.col = r.lastcol`); the line counter is not restored. -/
def Reader.push (r : Reader) (c : Char) : Reader :=
  { r with input := c :: r.input, col := r.lastcol }

/-- `Reader.err`: wrap every cause except `io.EOF` in a `LexingError`
carrying the current line and column. -/
def Reader.mkErr (r : Reader) (e : GoErr) : Fault :=
  match e with
  | .eof => .eof
  | e => .lexingError r.line r.col e

/-- Enter the error-sink state built by `Reader.err` for cause `e`. -/
def Reader.toErr (r : Reader) (e : GoErr) : Reader :=
  { r with mode := .errSink (r.mkErr e) }

/-- `Reader.maybeEmitComma`: emit a comma token if one is pending and clear
the flag. -/
def Reader.maybeEmitComma (r : Reader) : List Tok × Reader :=
  (if r.comma then [Tok.rune ','] else [], { r with comma := false })

theorem Reader.pop_input_lt {r r' : Reader} {b : Char}
    (h : r.pop = some (b, r')) : r'.input.length < r.input.length := by
  obtain ⟨inp, mode, line, col, lastcol, quote, comma, noident⟩ := r
  cases inp with
  | nil => simp [Reader.pop] at h
  | cons c rest =>
    simp only [Reader.pop] at h
    split at h <;>
      (simp only [Option.some.injEq, Prod.mk.injEq] at h
       rcases h with ⟨h1, h2⟩
       subst h2
       simp)

/-- The whitespace-skipping loop inside `lex`: pop runes while they are
spaces, then push the first non-space back and return to `lex`.  The loop
is bounded by an explicit iteration count; every iteration pops one rune,
so the count `r.input.length + 1` supplied by `skipWs` is never
exhausted. -/
def skipWsF : Nat → Reader → List Tok × Reader
  | 0, r => ([], r)
  | n + 1, r =>
    match r.pop with
    | none => ([], r.toErr .eof)
    | some (b, r') =>
      if goIsSpace b then skipWsF n r'
      else ([], { r'.push b with mode := .lex })

/-- The whitespace-skipping loop, entered with enough iterations for the
whole remaining input. -/
def skipWs (r : Reader) : List Tok × Reader :=
  skipWsF (r.input.length + 1) r

/-- One invocation of the `lex` state function (Default mode). -/
def stepLex (r0 : Reader) : List Tok × Reader :=
  match r0.pop with
  | none => ([], r0.toErr .eof)
  | some (b, r) =>
    if b = '"' ∨ b = '\'' then
      let p := r.maybeEmitComma
      (p.1 ++ [Tok.rune '"'], { p.2 with quote := b, mode := .lexString })
    else if b = '/' then
      match r.pop with
      | none => ([], r.toErr .eof)
      | some (next, r') =>
        if next = '/' then ([], { r' with mode := .lexLineComment })
        else ([], { r'.push next with mode := .lex })
    else if b = ',' then
      ([], { r with comma := true, noident := false, mode := .lex })
    else if b = '{' ∨ b = '[' then
      let p := r.maybeEmitComma
      (p.1 ++ [Tok.rune b], { p.2 with noident := false, mode := .lex })
    else if b = '}' ∨ b = ']' then
      ([Tok.rune b], { r with comma := false, noident := false, mode := .lex })
    else if b = '+' then
      ([], { r with mode := .lex })
    else if b = '0' then
      let p := r.maybeEmitComma
      match p.2.pop with
      | none => (p.1, p.2.toErr .eof)
      | some (next, r') =>
        if next = 'x' ∨ next = 'X' then (p.1, { r' with mode := .lexHex })
        else (p.1 ++ [Tok.rune b], { r'.push next with mode := .lex })
    else if b = '.' then
      let p := r.maybeEmitComma
      (p.1 ++ [Tok.rune '0', Tok.rune '.'], { p.2 with mode := .lexNumber })
    else if b = ':' then
      ([Tok.rune ':'], { r with noident := true, mode := .lex })
    else if goIsSpace b then
      skipWs r
    else
      let p := r.maybeEmitComma
      if (!p.2.noident && goIsLetter b) || b = '$' || b = '_' || b = '\\' then
        (p.1 ++ [Tok.rune '"', Tok.rune b], { p.2 with mode := .lexIdentifier })
      else if ('0'.toNat < b.toNat ∧ b.toNat < '9'.toNat) ∨ b = '.' ∨ b = '+' then
        (p.1, { p.2.push b with mode := .lexNumber })
      else
        (p.1 ++ [Tok.rune b], { p.2 with mode := .lex })

/-- One invocation of the `lexIdentifier` state function. -/
def stepLexIdentifier (r : Reader) : List Tok × Reader :=
  match r.pop with
  | none => ([], r.toErr .eof)
  | some (b, r') =>
    if goIsIdentChar b || b = '$' || b = '_' || b = '\\' ||
        b = '\u200C' || b = '\u200D' then
      ([Tok.rune b], { r' with mode := .lexIdentifier })
    else if b = ':' then
      ([Tok.rune '"'], { r'.push b with mode := .lex })
    else
      ([], r'.toErr (.unexpectedCharInIdentifier b))

/-- One invocation of the `lexNumber` state function. -/
def stepLexNumber (r : Reader) : List Tok × Reader :=
  match r.pop with
  | none => ([], r.toErr .eof)
  | some (b, r') =>
    if b = '.' then
      match r'.pop with
      | none => ([], r'.toErr .eof)
      | some (next, r'') =>
        if ("0123456789".toList.contains next) then
          ([], { r'' with mode := .lexNumber })
        else
          ([Tok.rune '.', Tok.rune '0'], { r''.push next with mode := .lexNumber })
    else if !("0123456789eE.+-".toList.contains b) then
      ([], { r'.push b with mode := .lex })
    else if b = 'e' ∨ b = 'E' then
      match r'.pop with
      | none => ([], r'.toErr .eof)
      | some (next, r'') =>
        if next ≠ '+' then ([Tok.rune b], { r''.push next with mode := .lexNumber })
        else ([Tok.rune b], { r'' with mode := .lexNumber })
    else
      ([Tok.rune b], { r' with mode := .lexNumber })

/-- The digit-accumulation loop of `lexHex`: pop runes while they are hex
digits, appending them to the accumulator; on the first non-hex rune push
it back and return the accumulated digits.  `(none, r)` models an `io.EOF`
from `pop` escaping the loop. -/
def lexHexScanF : Nat → Reader → List Char → Option (List Char) × Reader
  | 0, r, _ => (none, r)
  | n + 1, r, acc =>
    match r.pop with
    | none => (none, r)
    | some (b, r') =>
      if !("0123456789abcdefABCDEF".toList.contains b) then
        (some acc, r'.push b)
      else
        lexHexScanF n r' (acc ++ [b])

/-- The digit-accumulation loop, entered with enough iterations for the
whole remaining input (every iteration pops one rune). -/
def lexHexScan (r : Reader) (acc : List Char) : Option (List Char) × Reader :=
  lexHexScanF (r.input.length + 1) r acc

/-- Numeric value of one hexadecimal digit character. -/
def hexDigitVal (c : Char) : Nat :=
  if c.toNat ≤ 57 then c.toNat - 48
  else if c.toNat ≤ 70 then c.toNat - 55
  else c.toNat - 87

/-- Base-16 value of a digit string. -/
def hexFoldVal (s : List Char) : Nat :=
  s.foldl (fun a c => a * 16 + hexDigitVal c) 0

/-- Models `strconv.ParseInt(s, 16, 64)` on the accumulator: fails on an
empty string, on any non-hex-digit character, and when the value exceeds
the signed 64-bit range; otherwise returns the value (the accumulator holds
no sign, so the value is non-negative). -/
def goParseIntHex (s : List Char) : Option Nat :=
  if s = [] then none
  else if s.all (fun c => "0123456789abcdefABCDEF".toList.contains c) then
    if hexFoldVal s ≤ 2 ^ 63 - 1 then some (hexFoldVal s) else none
  else none

/-- One invocation of the `lexHex` state function: scan the digits, parse
them in base 16, and emit the base-10 text as one `tokenNumber`.  A parse
failure fires the `panic` in the source, modelled by the `panicked` mode. -/
def stepLexHex (r : Reader) : List Tok × Reader :=
  match lexHexScan r [] with
  | (none, r') => ([], r'.toErr .eof)
  | (some acc, r') =>
    match goParseIntHex acc with
    | none => ([], { r' with mode := .panicked })
    | some v => ([Tok.num (toString v)], { r' with mode := .lex })

/-- One invocation of the `lexString` state function. -/
def stepLexString (r : Reader) : List Tok × Reader :=
  match r.pop with
  | none => ([], r.toErr .eof)
  | some (b, r') =>
    if b = r.quote then
      ([Tok.rune '"'], { r' with mode := .lex })
    else if b = '\n' ∨ b = '\r' then
      ([], r'.toErr .unexpectedNewline)
    else if b = '\\' then
      match r'.pop with
      | none => ([], r'.toErr .eof)
      | some (next, r'') =>
        if next = '\n' then
          ([Tok.rune '\\', Tok.rune 'n'], { r'' with mode := .lexString })
        else
          ([Tok.rune '\\', Tok.rune next], { r'' with mode := .lexString })
    else if b = '"' then
      ([Tok.rune '\\', Tok.rune '"'], { r' with mode := .lexString })
    else
      ([Tok.rune b], { r' with mode := .lexString })

/-- The `lexLineComment` state function: discard runes up to and including
a newline, then return to `lex`; `io.EOF` before the newline escapes as
end-of-stream. -/
def stepLexLineCommentF : Nat → Reader → List Tok × Reader
  | 0, r => ([], r)
  | n + 1, r =>
    match r.pop with
    | none => ([], r.toErr .eof)
    | some (b, r') =>
      if b = '\n' then ([], { r' with mode := .lex })
      else stepLexLineCommentF n r'

/-- The comment-discarding loop, entered with enough iterations for the
whole remaining input (every iteration pops one rune). -/
def stepLexLineComment (r : Reader) : List Tok × Reader :=
  stepLexLineCommentF (r.input.length + 1) r

/-- One step of the machine: invoke the current state function
(`r.state = r.state(r)` in `next`), returning the tokens it sent on the
channel and the updated reader.  The error sink re-emits its fault forever;
a panicked machine is stuck. -/
def step (r : Reader) : List Tok × Reader :=
  match r.mode with
  | .lex => stepLex r
  | .lexIdentifier => stepLexIdentifier r
  | .lexNumber => stepLexNumber r
  | .lexHex => stepLexHex r
  | .lexString => stepLexString r
  | .lexLineComment => stepLexLineComment r
  | .errSink f => ([Tok.err f], r)
  | .panicked => ([], r)

/-- The reader built by `NewReader`: state `lex`, line 1, zero values for
the remaining fields. -/
def initReader (s : String) : Reader :=
  { input := s.toList, mode := .lex, line := 1, col := 0, lastcol := 0,
    quote := Char.ofNat 0, comma := false, noident := false }

/-- Capacity of the token channel allocated in `NewReader`
(`make(chan token, 3)`). -/
def channelCapacity : Nat := 3

/-- Result of running the machine over a whole document: the concatenated
output text together with the terminating fault, or the hex-parse panic,
or fuel exhaustion (never reached on the concrete inputs below). -/
inductive RunResult where
  | done (out : String) (f : Fault)
  | panicStop (out : String)
  | fuelOut
deriving DecidableEq, Repr

/-- Append a step's tokens to the output text; an error token terminates
the run with the fault. -/
def emitToks : List Tok → String → String ⊕ (String × Fault)
  | [], out => .inl out
  | Tok.rune c :: ts, out => emitToks ts (out.push c)
  | Tok.num s :: ts, out => emitToks ts (out ++ s)
  | Tok.err f :: _, out => .inr (out, f)

/-- Drive the machine step by step, accumulating output, until the first
error token (the machine is a sticky error sink from then on), a panic, or
fuel exhaustion. -/
def runAux : Nat → Reader → String → RunResult
  | 0, _, _ => .fuelOut
  | n + 1, r, out =>
    match r.mode with
    | .panicked => .panicStop out
    | _ =>
      match emitToks (step r).1 out with
      | .inr (out', f) => .done out' f
      | .inl out' => runAux n (step r).2 out'

/-- Translate a whole document: run the machine from `NewReader`'s initial
state until it faults (a complete run always ends in at least
end-of-stream). -/
def translate (s : String) : RunResult :=
  runAux (4 * s.length + 16) (initReader s) ""

/-- UTF-8 encoding of one rune (`utf8.EncodeRune`), as its byte values. -/
def utf8Encode (c : Char) : List Nat :=
  let n := c.toNat
  if n < 0x80 then [n]
  else if n < 0x800 then
    [0xC0 ||| (n >>> 6), 0x80 ||| (n &&& 0x3F)]
  else if n < 0x10000 then
    [0xE0 ||| (n >>> 12), 0x80 ||| ((n >>> 6) &&& 0x3F), 0x80 ||| (n &&& 0x3F)]
  else
    [0xF0 ||| (n >>> 18), 0x80 ||| ((n >>> 12) &&& 0x3F),
     0x80 ||| ((n >>> 6) &&& 0x3F), 0x80 ||| (n &&& 0x3F)]

/-- The state owned by `Reader.Read` across calls: the lexer, the carry
buffer `remain` (bytes of a partially delivered token), and the contents of
the token channel. -/
structure RState where
  r : Reader
  remain : List Nat
  queue : List Tok
deriving DecidableEq, Repr

/-- `Reader.next`: deliver the next queued token, running the state
machine only while the channel is empty.  `none` models fuel exhaustion
(or a stuck panicked machine). -/
def nextTok : Nat → RState → Option (Tok × RState)
  | 0, _ => none
  | fuel + 1, st =>
    match st.queue with
    | t :: ts => some (t, { st with queue := ts })
    | [] =>
      if st.r.mode = .panicked then none
      else nextTok fuel { st with r := (step st.r).2, queue := (step st.r).1 }

/-- The `for i < len(buf)` loop of `Reader.Read`.  For a rune token the
byte counter advances by the full encoded length `l` even when only
`copied < l` bytes fit (`i += l` in the source); for a numeral token it
advances by the copied byte count (`i += copied`). -/
def goReadLoop : Nat → RState → Nat → Nat → Nat × Option Fault × RState
  | 0, st, _, i => (i, none, st)
  | fuel + 1, st, c, i =>
    if i < c then
      match nextTok (fuel + 1) st with
      | none => (i, none, st)
      | some (tok, st') =>
        match tok with
        | Tok.err f => (i, some f, st')
        | Tok.rune ch =>
          let enc := utf8Encode ch
          let copied := min (c - i) enc.length
          let st'' := if copied < enc.length
            then { st' with remain := enc.drop copied } else st'
          goReadLoop fuel st'' c (i + enc.length)
        | Tok.num s =>
          let bs := (s.toList.map Char.toNat)
          let copied := min (c - i) bs.length
          let st'' := if copied < bs.length
            then { st' with remain := bs.drop copied } else st'
          goReadLoop fuel st'' c (i + copied)
    else (i, none, st)

/-- `Reader.Read` with a buffer of capacity `c`: first copy the carry
buffer into the output (`i := copy(buf, r.remain); r.remain = nil` — any
carry bytes beyond the capacity are discarded with it), then loop filling
the buffer, returning the byte count and the error, if any. -/
def goRead (fuel : Nat) (st : RState) (c : Nat) : Nat × Option Fault × RState :=
  goReadLoop fuel { st with remain := [] } c (min c st.remain.length)

/-- The read-adapter state right after `NewReader`. -/
def initRState (s : String) : RState :=
  { r := initReader s, remain := [], queue := [] }

theorem skipWsF_fst (n : Nat) (r : Reader) : (skipWsF n r).1 = [] := by
  induction n generalizing r with
  | zero => rfl
  | succ n ih =>
    simp only [skipWsF]
    split
    · rfl
    · split
      · exact ih _
      · rfl

theorem skipWs_fst (r : Reader) : (skipWs r).1 = [] := skipWsF_fst _ _

theorem stepLexLineCommentF_fst (n : Nat) (r : Reader) :
    (stepLexLineCommentF n r).1 = [] := by
  induction n generalizing r with
  | zero => rfl
  | succ n ih =>
    simp only [stepLexLineCommentF]
    split
    · rfl
    · split
      · rfl
      · exact ih _

theorem stepLexLineComment_fst (r : Reader) : (stepLexLineComment r).1 = [] :=
  stepLexLineCommentF_fst _ _

/-- Claim C1: the contract says `Read` returns `n ≤ C`, but the rune case
of the copy loop advances the byte counter by the full encoded length even
when the rune only partially fits (`i += l` instead of `i += copied`), so a
two-byte rune split across a capacity-1 buffer makes `Read` report 2 bytes
written.  Evaluation of the model on the translation of `"é"`: the first
capacity-1 read returns 1 byte, the second returns 2 > 1. -/
theorem read_count_exceeds_capacity :
    (goRead 50 (initRState "\"é\"") 1).1 = 1 ∧
    (goRead 50 (goRead 50 (initRState "\"é\"") 1).2.2 1).1 = 2 ∧
    ¬ (goRead 50 (goRead 50 (initRState "\"é\"") 1).2.2 1).1 ≤ 1 := by
  decide

/-- Claim C2: the claim says a `.` followed by a digit is emitted (with the
digit following), so `1.5` translates to `1.5`.  In the code, the
digit-lookahead branch neither pushes the digit back nor emits anything,
so the `.` and the digit after it are both consumed and dropped: `1.5`
translates to `1`, and in Number mode the input `.5x` consumes `.5`
emitting nothing.  The non-digit half of the claim does hold: `1.]`
translates to `1.0]`. -/
theorem number_dot_digit_swallowed :
    translate "1.5" = RunResult.done "1" Fault.eof ∧
    translate "1.]" = RunResult.done "1.0]" Fault.eof ∧
    (step { initReader ".5x" with mode := Mode.lexNumber }).1 = [] ∧
    (step { initReader ".5x" with mode := Mode.lexNumber }).2.input = ['x'] ∧
    (step { initReader ".5x" with mode := Mode.lexNumber }).2.mode = Mode.lexNumber := by
  decide

/-- Claim C4: the claim says every digit 1 through 9 in Default mode is
pushed back into Number mode.  The guard `b > '0' && b < '9'` excludes
`'9'`, which instead falls through to the verbatim-emission branch and
stays in Default mode; a numeral starting with 9 therefore misses numeric
rewriting: `9.]` translates to `90.]` (the Default-mode leading-dot branch
fires) while `8.]` correctly translates to `8.0]`. -/
theorem digit_nine_skips_number_mode :
    (step (initReader "9")).1 = [Tok.rune '9'] ∧
    (step (initReader "9")).2.mode = Mode.lex ∧
    (step (initReader "8")).1 = [] ∧
    (step (initReader "8")).2.mode = Mode.lexNumber ∧
    translate "9.]" = RunResult.done "90.]" Fault.eof ∧
    translate "8.]" = RunResult.done "8.0]" Fault.eof := by
  decide

/-- Claim C8: consuming a `,` emits nothing and sets the pending-comma
flag; a pending comma is materialized by `maybeEmitComma` exactly when the
next content token is emitted; consuming `}` or `]` clears the flag and
emits only the closer; hence `[1,2,]` translates to `[1,2]` and
`{"a":1,}` to `{"a":1}`. -/
theorem trailing_comma_elision :
    (∀ (r : Reader) (rest : List Char),
      r.mode = Mode.lex → r.input = ',' :: rest →
      (step r).1 = [] ∧ (step r).2.comma = true) ∧
    (∀ r : Reader, r.comma = true →
      r.maybeEmitComma = ([Tok.rune ','], { r with comma := false })) ∧
    (∀ (r : Reader) (b : Char) (rest : List Char),
      r.mode = Mode.lex → r.input = b :: rest → (b = '}' ∨ b = ']') →
      (step r).1 = [Tok.rune b] ∧ (step r).2.comma = false) ∧
    translate "[1,2,]" = RunResult.done "[1,2]" Fault.eof ∧
    translate "\x7b\"a\":1,\x7d" = RunResult.done "\x7b\"a\":1\x7d" Fault.eof := by
  refine ⟨?_, ?_, ?_, by decide, by decide⟩
  · intro r rest hm hin
    obtain ⟨inp, mode, line, col, lastcol, quote, comma, noident⟩ := r
    simp only at hm hin
    subst hm; subst hin
    simp [step, stepLex, Reader.pop]
  · intro r hc
    simp [Reader.maybeEmitComma, hc]
  · intro r b rest hm hin hb
    obtain ⟨inp, mode, line, col, lastcol, quote, comma, noident⟩ := r
    simp only at hm hin
    subst hm; subst hin
    rcases hb with rfl | rfl <;> simp [step, stepLex, Reader.pop]

/-- Witness for C8's universally quantified parts at concrete inputs. -/
theorem trailing_comma_elision_witness :
    ((step (initReader ",")).1 = [] ∧ (step (initReader ",")).2.comma = true) ∧
    { initReader "x" with comma := true }.maybeEmitComma =
      ([Tok.rune ','], initReader "x") ∧
    ((step (initReader "]")).1 = [Tok.rune ']'] ∧
      (step (initReader "]")).2.comma = false) := by
  refine ⟨?_, ?_, ?_⟩
  · exact trailing_comma_elision.1 (initReader ",") [] rfl rfl
  · exact trailing_comma_elision.2.1 { initReader "x" with comma := true } rfl
  · exact trailing_comma_elision.2.2.1 (initReader "]") ']' [] rfl rfl (Or.inr rfl)

/-- Claim C10: after consuming a `0` in Default mode the machine performs a
one-rune lookahead; if that lookahead hits end-of-stream the already
consumed `0` is never emitted.  For the document `0` the translated output
is empty and the run ends in end-of-stream; at the step level, only a
pending comma (materialized before the lookahead) can be emitted, never
the `0`. -/
theorem zero_then_eof_not_emitted :
    translate "0" = RunResult.done "" Fault.eof ∧
    (∀ r : Reader, r.mode = Mode.lex → r.input = ['0'] →
      (step r).1 = (if r.comma then [Tok.rune ','] else []) ∧
      (step r).2.mode = Mode.errSink Fault.eof) := by
  refine ⟨by decide, ?_⟩
  intro r hm hin
  obtain ⟨inp, mode, line, col, lastcol, quote, comma, noident⟩ := r
  simp only at hm hin
  subst hm; subst hin
  simp [step, stepLex, Reader.pop, Reader.maybeEmitComma, Reader.toErr, Reader.mkErr]

/-- Witness for C10's universally quantified part at the concrete
document `0`. -/
theorem zero_then_eof_not_emitted_witness :
    (step (initReader "0")).1 = [] ∧
    (step (initReader "0")).2.mode = Mode.errSink Fault.eof := by
  have h := zero_then_eof_not_emitted.2 (initReader "0") rfl rfl
  exact ⟨by simpa using h.1, h.2⟩

/-- Claim C7: faults are sticky.  The error-sink state re-emits the same
error token on every step without touching the reader; `Reader.err` leaves
`io.EOF` unwrapped and wraps every other cause with the line and column at
the point of failure; and once the machine has faulted (queue and carry
buffer drained), every `Read` call returns zero bytes, the same fault, and
an unchanged state — no input is consumed and no output is produced. -/
theorem faults_sticky :
    (∀ (r : Reader) (f : Fault), r.mode = Mode.errSink f →
      step r = ([Tok.err f], r)) ∧
    (∀ r : Reader, r.mkErr GoErr.eof = Fault.eof) ∧
    (∀ (r : Reader) (e : GoErr), e ≠ GoErr.eof →
      r.mkErr e = Fault.lexingError r.line r.col e) ∧
    (∀ (fuel c : Nat) (st : RState) (f : Fault),
      2 ≤ fuel → 0 < c → st.queue = [] → st.remain = [] →
      st.r.mode = Mode.errSink f →
      goRead fuel st c = (0, some f, st)) := by
  refine ⟨?_, ?_, ?_, ?_⟩
  · intro r f hm
    simp [step, hm]
  · intro r
    rfl
  · intro r e he
    cases e with
    | eof => exact absurd rfl he
    | unexpectedNewline => rfl
    | unexpectedCharInIdentifier c => rfl
  · intro fuel c st f hf hc hq hr hm
    obtain ⟨r, remain, queue⟩ := st
    simp only at hq hr hm
    subst hq; subst hr
    obtain ⟨m, rfl⟩ : ∃ m, fuel = m + 2 := ⟨fuel - 2, by omega⟩
    simp [goRead, goReadLoop, nextTok, step, hm, hc]

/-- Witness for C7 at a concrete faulted state: a reader stuck in the
end-of-stream sink reports the fault again and is left unchanged. -/
theorem faults_sticky_witness :
    goRead 2 { r := { initReader "" with mode := Mode.errSink Fault.eof },
               remain := [], queue := [] } 1 =
      (0, some Fault.eof,
        { r := { initReader "" with mode := Mode.errSink Fault.eof },
          remain := [], queue := [] }) := by
  exact faults_sticky.2.2.2 2 1 _ Fault.eof (by omega) (by omega) rfl rfl rfl

theorem commaToks_len (r : Reader) : (r.maybeEmitComma).1.length ≤ 1 := by
  simp only [Reader.maybeEmitComma]
  split <;> simp

theorem stepLex_len (r0 : Reader) : (stepLex r0).1.length ≤ 3 := by
  unfold stepLex
  cases hp : r0.pop with
  | none => exact Nat.zero_le 3
  | some br =>
    obtain ⟨b, r⟩ := br
    dsimp only
    have hc := commaToks_len r
    by_cases h1 : b = '\"' ∨ b = '\''
    · rw [if_pos h1]
      dsimp only
      simp only [List.length_append]
      simp at hc ⊢
      omega
    · rw [if_neg h1]
      by_cases h2 : b = '/'
      · rw [if_pos h2]
        cases hp2 : r.pop with
        | none => exact Nat.zero_le 3
        | some br2 =>
          obtain ⟨next, r2⟩ := br2
          dsimp only
          split <;> exact Nat.zero_le 3
      · rw [if_neg h2]
        by_cases h3 : b = ','
        · rw [if_pos h3]; exact Nat.zero_le 3
        · rw [if_neg h3]
          by_cases h4 : b = '{' ∨ b = '['
          · rw [if_pos h4]
            dsimp only
            simp only [List.length_append]
            simp at hc ⊢
            omega
          · rw [if_neg h4]
            by_cases h5 : b = '}' ∨ b = ']'
            · rw [if_pos h5]; simp
            · rw [if_neg h5]
              by_cases h6 : b = '+'
              · rw [if_pos h6]; exact Nat.zero_le 3
              · rw [if_neg h6]
                by_cases h7 : b = '0'
                · rw [if_pos h7]
                  cases hp2 : (r.maybeEmitComma).2.pop with
                  | none => dsimp only; omega
                  | some br2 =>
                    obtain ⟨next, r2⟩ := br2
                    dsimp only
                    split
                    · dsimp only; omega
                    · simp only [List.length_append]
                      simp at hc ⊢
                      omega
                · rw [if_neg h7]
                  by_cases h8 : b = '.'
                  · rw [if_pos h8]
                    dsimp only
                    simp only [List.length_append]
                    simp at hc ⊢
                    omega
                  · rw [if_neg h8]
                    by_cases h9 : b = ':'
                    · rw [if_pos h9]; simp
                    · rw [if_neg h9]
                      by_cases h10 : goIsSpace b = true
                      · rw [if_pos h10]
                        simp [skipWs_fst]
                      · rw [if_neg h10]
                        split
                        · simp only [List.length_append]
                          simp at hc ⊢
                          omega
                        · split
                          · dsimp only; omega
                          · simp only [List.length_append]
                            simp at hc ⊢
                            omega

theorem stepLexIdentifier_len (r : Reader) : (stepLexIdentifier r).1.length ≤ 3 := by
  unfold stepLexIdentifier
  repeat' split
  all_goals simp

theorem stepLexNumber_len (r : Reader) : (stepLexNumber r).1.length ≤ 3 := by
  unfold stepLexNumber
  repeat' split
  all_goals simp

theorem stepLexHex_len (r : Reader) : (stepLexHex r).1.length ≤ 3 := by
  unfold stepLexHex
  repeat' split
  all_goals simp

theorem stepLexString_len (r : Reader) : (stepLexString r).1.length ≤ 3 := by
  unfold stepLexString
  repeat' split
  all_goals simp

/-- Claim C9: every single step of any state handler enqueues at most 3
tokens, the capacity of the channel allocated in `NewReader`, so the
synchronous enqueue (always performed with the channel drained) can never
block. -/
theorem step_emits_at_most_channel_capacity :
    channelCapacity = 3 ∧ ∀ r : Reader, (step r).1.length ≤ channelCapacity := by
  refine ⟨rfl, ?_⟩
  intro r
  show (step r).1.length ≤ 3
  cases hm : r.mode <;> simp only [step, hm] <;>
    first
    | exact stepLex_len r
    | exact stepLexIdentifier_len r
    | exact stepLexNumber_len r
    | exact stepLexHex_len r
    | exact stepLexString_len r
    | simp [stepLexLineComment_fst]

theorem lexHexScanF_all_hex (n : Nat) (acc2 : List Char) (r2 : Reader) :
    ∀ (r : Reader) (acc : List Char),
      lexHexScanF n r acc = (some acc2, r2) →
      acc.all (fun c => "0123456789abcdefABCDEF".toList.contains c) = true →
      acc2.all (fun c => "0123456789abcdefABCDEF".toList.contains c) = true := by
  induction n with
  | zero =>
    intro r acc h _
    simp [lexHexScanF] at h
  | succ n ih =>
    intro r acc h hacc
    simp only [lexHexScanF] at h
    cases hp : r.pop with
    | none =>
      rw [hp] at h
      simp at h
    | some br =>
      obtain ⟨b, r'⟩ := br
      rw [hp] at h
      dsimp only at h
      cases hcb : ("0123456789abcdefABCDEF".toList.contains b) with
      | false =>
        rw [hcb, if_pos (by decide)] at h
        simp only [Prod.mk.injEq, Option.some.injEq] at h
        rcases h with ⟨h1, h2⟩
        exact h1 ▸ hacc
      | true =>
        rw [hcb, if_neg (by decide)] at h
        refine ih r' (acc ++ [b]) h ?_
        rw [List.all_append, hacc]
        simp only [List.all_cons, List.all_nil, hcb, Bool.true_and,
          Bool.and_true, Bool.and_self]

theorem goParseIntHex_ok (acc : List Char)
    (hne : acc ≠ [])
    (hall : acc.all (fun c => "0123456789abcdefABCDEF".toList.contains c) = true)
    (hrange : hexFoldVal acc ≤ 2 ^ 63 - 1) :
    goParseIntHex acc = some (hexFoldVal acc) := by
  unfold goParseIntHex
  rw [if_neg hne, if_pos hall, if_pos hrange]

/-- Claim C3 counterexample: the claim says the base-16 parse of the
accumulated digit string never fails.  It does fail, firing the panic: on
`0xg]` the accumulator is empty (`g` is pushed back before any digit is
read) and `ParseInt` rejects the empty string; on a 17-digit hex literal
the value exceeds the signed 64-bit range and `ParseInt` reports
overflow. -/
theorem hex_panic_reachable :
    translate "0xg]" = RunResult.panicStop "" ∧
    translate "0x10000000000000000]" = RunResult.panicStop "" := by
  decide

/-- Claim C3 (amended): the base-16 parse of the accumulated digit string
fails only when no digit was accumulated or the value exceeds the signed
64-bit range.  Whenever the scan accumulated at least one digit and the
value is at most `2^63 - 1`, the parse succeeds (every accumulated
character was indeed verified to be a hex digit), the decimal text is
emitted as one numeral token, and the panic branch is not taken. -/
theorem hex_parse_ok (r : Reader) (acc : List Char)
    (hscan : (lexHexScan r []).1 = some acc)
    (hne : acc ≠ [])
    (hrange : hexFoldVal acc ≤ 2 ^ 63 - 1) :
    goParseIntHex acc = some (hexFoldVal acc) ∧
    stepLexHex r = ([Tok.num (toString (hexFoldVal acc))],
      { (lexHexScan r []).2 with mode := Mode.lex }) ∧
    (stepLexHex r).2.mode ≠ Mode.panicked := by
  have hpair : lexHexScan r [] = (some acc, (lexHexScan r []).2) := by
    rw [← hscan]
  have hall := lexHexScanF_all_hex (r.input.length + 1) acc ((lexHexScan r []).2)
    r [] hpair rfl
  have hparse := goParseIntHex_ok acc hne hall hrange
  have hstep : stepLexHex r = ([Tok.num (toString (hexFoldVal acc))],
      { (lexHexScan r []).2 with mode := Mode.lex }) := by
    unfold stepLexHex
    rw [hpair]
    dsimp only
    rw [hparse]
  refine ⟨hparse, hstep, ?_⟩
  rw [hstep]
  simp

/-- Witness for C3's amended theorem at the concrete literal `0xff`: the
scan accumulates `ff`, the parse succeeds, and no panic occurs. -/
theorem hex_parse_ok_witness :
    goParseIntHex ['f', 'f'] = some (hexFoldVal ['f', 'f']) ∧
    (stepLexHex { initReader "ff]" with mode := Mode.lexHex }).2.mode ≠
      Mode.panicked := by
  have h := hex_parse_ok { initReader "ff]" with mode := Mode.lexHex }
    ['f', 'f'] (by decide) (by decide) (by decide)
  exact ⟨h.1, h.2.2⟩

/-- Claim C5 counterexample: a string body spanning a raw newline sitting
at line 3, column 5 of the document `[\n\n"abc\n` is reported at line 4,
column 0, not at line 3, column 5 as the claim states. -/
theorem newline_fault_position_counterexample :
    translate "[\n\n\"abc\n" =
      RunResult.done "[\"abc" (Fault.lexingError 4 0 GoErr.unexpectedNewline) ∧
    Fault.lexingError 4 0 GoErr.unexpectedNewline ≠
      Fault.lexingError 3 5 GoErr.unexpectedNewline := by
  decide

/-- Claim C5 (amended): the unterminated-string fault is raised only after
`pop` has consumed the newline, which advances the position tracker, so a
raw newline at line `L` is reported at line `L + 1`, column 0 — the
position immediately after the newline, not the newline's own position. -/
theorem newline_fault_position (r : Reader) (rest : List Char)
    (hm : r.mode = Mode.lexString) (hq : r.quote ≠ '\n')
    (hin : r.input = '\n' :: rest) :
    (step r).1 = [] ∧
    (step r).2.mode =
      Mode.errSink (Fault.lexingError (r.line + 1) 0 GoErr.unexpectedNewline) := by
  obtain ⟨inp, mode, line, col, lastcol, quote, comma, noident⟩ := r
  simp only at hm hin hq
  subst hm; subst hin
  have hq2 : ¬('\n' = quote) := fun h => hq h.symm
  simp [step, stepLexString, Reader.pop, Reader.toErr, Reader.mkErr, hq2]

/-- Witness for C5's amended theorem: a double-quoted string body hitting
a raw newline on line 1 reports line 2, column 0. -/
theorem newline_fault_position_witness :
    (step { initReader "\n" with mode := Mode.lexString, quote := '"' }).1 = [] ∧
    (step { initReader "\n" with mode := Mode.lexString, quote := '"' }).2.mode =
      Mode.errSink (Fault.lexingError 2 0 GoErr.unexpectedNewline) := by
  exact newline_fault_position _ [] rfl (by decide) rfl

theorem goIsLetter_facts {b : Char} (hb : goIsLetter b = true) :
    b ≠ '"' ∧ b ≠ '\'' ∧ b ≠ '/' ∧ b ≠ ',' ∧ b ≠ '{' ∧ b ≠ '[' ∧ b ≠ '}' ∧
    b ≠ ']' ∧ b ≠ '+' ∧ b ≠ '0' ∧ b ≠ '.' ∧ b ≠ ':' ∧ b ≠ '$' ∧ b ≠ '_' ∧
    b ≠ '\\' ∧ b ≠ '\n' ∧ goIsSpace b = false ∧
    ¬(48 < b.toNat ∧ b.toNat < 57) := by
  have hnum : (65 ≤ b.toNat ∧ b.toNat ≤ 90) ∨ (97 ≤ b.toNat ∧ b.toNat ≤ 122) ∨
      b.toNat = 0xAA ∨ b.toNat = 0xB5 ∨ b.toNat = 0xBA ∨
      (0xC0 ≤ b.toNat ∧ b.toNat ≤ 0xD6) ∨ (0xD8 ≤ b.toNat ∧ b.toNat ≤ 0xF6) ∨
      (0xF8 ≤ b.toNat ∧ b.toNat ≤ 0xFF) := by
    simpa [goIsLetter, decide_eq_true_eq] using hb
  refine ⟨?_, ?_, ?_, ?_, ?_, ?_, ?_, ?_, ?_, ?_, ?_, ?_, ?_, ?_, ?_, ?_, ?_, ?_⟩ <;>
    first
    | (intro h; subst h; revert hnum; decide)
    | (simp only [goIsSpace, decide_eq_false_iff_not]
       omega)
    | omega

/-- Claim C6 counterexample: with `suppressKeyQuoting` set (right after a
colon) a value beginning with `$` still enters Identifier mode and is
wrapped in quotes, because operator precedence makes the flag guard only
the letter test: `{a:$}` translates to `{"a":"$` followed by a fault, with
an opening `"` emitted before the `$`. -/
theorem dollar_after_colon_enters_identifier :
    (step { initReader "$x" with noident := true }).1 =
      [Tok.rune '"', Tok.rune '$'] ∧
    (step { initReader "$x" with noident := true }).2.mode =
      Mode.lexIdentifier ∧
    translate "\x7ba:$\x7d" =
      RunResult.done "\x7b\"a\":\"$"
        (Fault.lexingError 1 5 (GoErr.unexpectedCharInIdentifier '}')) := by
  decide

/-- Claim C6 (amended): with `suppressKeyQuoting` set, a bare word
beginning with a letter is emitted unquoted character-by-character in
Default mode without entering Identifier; but a word beginning with `$`,
`_`, or `\` still enters Identifier mode with an opening `"`, because the
flag only guards the letter test in the branch condition. -/
theorem suppress_key_quoting_letters_only :
    (∀ (r : Reader) (b : Char) (rest : List Char),
      r.mode = Mode.lex → r.noident = true → r.input = b :: rest →
      goIsLetter b = true →
      (step r).1 = (if r.comma then [Tok.rune ','] else []) ++ [Tok.rune b] ∧
      (step r).2.mode = Mode.lex ∧ (step r).2.noident = true) ∧
    (∀ (r : Reader) (b : Char) (rest : List Char),
      r.mode = Mode.lex → r.noident = true → r.input = b :: rest →
      (b = '$' ∨ b = '_' ∨ b = '\\') →
      (step r).1 = (if r.comma then [Tok.rune ','] else []) ++
        [Tok.rune '"', Tok.rune b] ∧
      (step r).2.mode = Mode.lexIdentifier) := by
  constructor
  · intro r b rest hm hni hin hb
    obtain ⟨f1, f2, f3, f4, f5, f6, f7, f8, f9, f10, f11, f12, f13, f14,
      f15, f16, f17, f18⟩ := goIsLetter_facts hb
    obtain ⟨inp, mode, line, col, lastcol, quote, comma, noident⟩ := r
    simp only at hm hni hin
    subst hm; subst hni; subst hin
    simp [step, stepLex, Reader.pop, Reader.maybeEmitComma,
      f1, f2, f3, f4, f5, f6, f7, f8, f9, f10, f11, f12, f13, f14,
      f15, f16, f17, f18]
  · intro r b rest hm hni hin hb
    obtain ⟨inp, mode, line, col, lastcol, quote, comma, noident⟩ := r
    simp only at hm hni hin
    subst hm; subst hni; subst hin
    rcases hb with rfl | rfl | rfl <;>
      simp [step, stepLex, Reader.pop, Reader.maybeEmitComma,
        show goIsSpace '$' = false from by decide,
        show goIsSpace '_' = false from by decide,
        show goIsSpace '\\' = false from by decide,
        show goIsLetter '$' = false from by decide,
        show goIsLetter '_' = false from by decide,
        show goIsLetter '\\' = false from by decide]

/-- Witness for C6's amended theorem: after a colon the letter value `t`
passes through unquoted in Default mode, while `_` enters Identifier mode
with quoting. -/
theorem suppress_key_quoting_letters_only_witness :
    ((step { initReader "t]" with noident := true }).1 = [Tok.rune 't'] ∧
      (step { initReader "t]" with noident := true }).2.mode = Mode.lex) ∧
    (step { initReader "_v" with noident := true }).2.mode =
      Mode.lexIdentifier := by
  have h1 := suppress_key_quoting_letters_only.1
    { initReader "t]" with noident := true } 't' [']'] rfl rfl rfl (by decide)
  have h2 := suppress_key_quoting_letters_only.2
    { initReader "_v" with noident := true } '_' ['v'] rfl rfl rfl
    (Or.inr (Or.inl rfl))
  exact ⟨⟨by simpa using h1.1, h1.2.1⟩, h2.2⟩

end Json5
